import Mathlib

/-
Verification of the memoizing call cache (function_cache.py) and the
insertion sort routine (insertion_sort.py), via a shallow embedding:
the mutable-default-argument cache becomes explicit state passing, the
Python dict becomes an insertion-ordered association list, and runtime
errors (RecursionError, TypeError, errors raised by the wrapped
computation) become an Except monad.
-/

namespace FunctionCache

/-- Python values in the universe the cache operates on: integers, strings,
booleans, None, and lists of integers (the canonical unhashable value). -/
inductive PyVal where
  | int : Int → PyVal
  | str : String → PyVal
  | bool : Bool → PyVal
  | none : PyVal
  | list : List Int → PyVal
deriving DecidableEq

/-- Python truthiness of the values above. -/
def truthy : PyVal → Bool
  | .int n => n != 0
  | .str s => s != ""
  | .bool b => b
  | .none => false
  | .list xs => !xs.isEmpty

/-- Embeds isinstance(x, Hashable): true for every value except lists. -/
def isinstHashable : PyVal → Bool
  | .list _ => false
  | _ => true

/-- Runtime errors that can escape the cache layer, together with opaque
errors raised by the wrapped computation itself. -/
inductive PyErr where
  | recursionError : PyErr
  | typeError : PyErr
  | userError : Int → PyErr
deriving DecidableEq

/-- A Python dict preserving insertion order: an association list with unique
keys, new keys appended at the end. Keys are flattened argument tuples. -/
abbrev Cache := List (List PyVal × PyVal)

/-- Embeds dict lookup. Keys are unique, so scanning order is irrelevant. -/
def dlookup : Cache → List PyVal → Option PyVal
  | [], _ => Option.none
  | e :: rest, k => if e.1 = k then some e.2 else dlookup rest k

/-- Embeds reading local_cache[key] on a defaultdict whose factory is
lambda: False: a missing key is inserted at the end mapped to False, and
False is returned. -/
def dictGet (c : Cache) (k : List PyVal) : Cache × PyVal :=
  match dlookup c k with
  | some v => (c, v)
  | Option.none => (c ++ [(k, PyVal.bool false)], PyVal.bool false)

/-- Embeds dict assignment: overwrite in place when the key is present,
append at the end when it is new. -/
def dictSet : Cache → List PyVal → PyVal → Cache
  | [], k, v => [(k, v)]
  | e :: rest, k, v => if e.1 = k then (k, v) :: rest else e :: dictSet rest k v

/-- The loop hidden in control_cache_size: starting from ccache, a deepcopy
equal to cache, pop keys in insertion order while the length exceeds size. -/
def evictedCopy (size : Int) : Cache → Cache
  | [] => []
  | e :: rest =>
      if ((rest.length : Int) + 1 > size) then evictedCopy size rest else e :: rest

/-- Embeds control_cache_size(cache, size). The source pops keys from a
deepcopy named ccache and then rebinds the local name cache to a copy of
ccache; the caller's mapping is never mutated, so in state-passing form the
function hands back its input. evictedCopy is the discarded local result. -/
def control_cache_size (cache : Option Cache) (size : Int) : Option Cache :=
  match cache with
  | some c =>
      if (c.length : Int) > size then
        let _ccache := evictedCopy size c
        some c
      else some c
  | Option.none => Option.none

/-- Embeds hashable(obj): obj is a list or tuple all of whose items are
isinstance-Hashable. Here obj is always the flattened argument tuple, so the
list_or_tuple test is always true. -/
def hashable (obj : List PyVal) : Bool := obj.all isinstHashable

/-- Embeds get_unhashable_item(obj): the stream of unhashable items of obj. -/
def get_unhashable_item (obj : List PyVal) : List PyVal :=
  obj.filter (fun it => !isinstHashable it)

/-- Embeds the value of consume(iterator, n): the source advances the
iterator and falls off the end with no return statement, so the call
evaluates to None whatever the iterator holds. -/
def consume_value (_ : List PyVal) (_ : Nat) : PyVal := PyVal.none

/-- Embeds remove_unhashable(obj, unh): keep the items that are not unh.
The only call site passes unh = None, the value of consume, where Python
identity agrees with structural equality. -/
def remove_unhashable (obj : List PyVal) (unh : PyVal) : List PyVal :=
  obj.filter (fun it => !(it == unh))

/-- The test inside the wh lambda of get_hashable_subset:
hashable(remove_unhashable(obj, consume(get_unhashable_item(obj), 1))) or
len(obj) == 0. Since consume evaluates to None, only None items are ever
removed before the test. -/
def whBody (obj : List PyVal) : Bool :=
  hashable (remove_unhashable obj (consume_value (get_unhashable_item obj) 1))
    || obj.length == 0

/-- CPython's default recursion limit, which bounds the self-application
of the wh lambda. -/
def RECURSION_LIMIT : Nat := 1000

/-- Embeds wh(): it returns True when the test passes and otherwise calls
itself with unchanged state, so the interpreter aborts the self-application
with RecursionError once the recursion limit is reached. -/
def wh (obj : List PyVal) : Nat → Except PyErr Bool
  | 0 => Except.error PyErr.recursionError
  | fuel + 1 => if whBody obj then Except.ok true else wh obj fuel

/-- Embeds get_hashable_subset(obj), whose body is wh() and obj: wh() only
ever produces True or raises, and True and obj evaluates to obj, so the
source hands back the original obj whenever wh() terminates. -/
def get_hashable_subset (obj : List PyVal) : Except PyErr (List PyVal) :=
  match wh obj RECURSION_LIMIT with
  | Except.error e => Except.error e
  | Except.ok _ => Except.ok obj

/-- Embeds the obj built in new_func: map_fn sends the args tuple to its
elements and the kwargs dict to its values, and reduce concatenates the two,
so obj is the positional values followed by the keyword values in order. -/
def flatten_call (args : List PyVal) (kwargs : List (String × PyVal)) : List PyVal :=
  args ++ kwargs.map Prod.snd

/-- Truthiness of the derived key, a tuple: nonempty. -/
def truthyKey (k : List PyVal) : Bool := !k.isEmpty

/-- Embeds new_func, the wrapper the decorator installs. State passing: the
argument local_cache is the active cache for this call (Option.none is the
local_cache=None sentinel) and the first component of the result is that
cache afterwards. The last component counts invocations of the wrapped func
during the call. -/
def new_func (max_cache_size : Int)
    (func : List PyVal → List (String × PyVal) → Except PyErr PyVal)
    (args : List PyVal) (kwargs : List (String × PyVal))
    (local_cache : Option Cache) :
    Option Cache × Except PyErr PyVal × Nat :=
  let local_cache := control_cache_size local_cache max_cache_size
  let obj := flatten_call args kwargs
  match get_hashable_subset obj with
  | Except.error e => (local_cache, Except.error e, 0)
  | Except.ok key =>
    if truthyKey key then
      match local_cache with
      | Option.none => (Option.none, Except.error PyErr.typeError, 0)
      | some c =>
        let gc := dictGet c key
        if truthy gc.2 then (some gc.1, Except.ok gc.2, 0)
        else
          match func args kwargs with
          | Except.error e => (some gc.1, Except.error e, 1)
          | Except.ok v =>
            let c2 := dictSet gc.1 key v
            let g2 := dictGet c2 key
            (some g2.1, Except.ok g2.2, 1)
    else
      match func args kwargs with
      | Except.error e => (local_cache, Except.error e, 1)
      | Except.ok v => (local_cache, Except.ok v, 1)

/-- Embeds locally_cached: the decorator factory performs no validation of
max_cache_size and simply closes new_func over it. -/
def locally_cached (max_cache_size : Int)
    (func : List PyVal → List (String × PyVal) → Except PyErr PyVal)
    (args : List PyVal) (kwargs : List (String × PyVal))
    (local_cache : Option Cache) :
    Option Cache × Except PyErr PyVal × Nat :=
  new_func max_cache_size func args kwargs local_cache

/-- One call through the wrapper, resolving Python's mutable-default-argument
mechanism: shared is the function-bound default cache created once at
definition time. With no override the shared instance is used and its
mutation kept; with an explicit override (some oc, where oc may itself be the
None sentinel) the call runs on the override and the shared instance is
untouched. The first component is the shared instance afterwards. -/
def dispatch (max_cache_size : Int)
    (func : List PyVal → List (String × PyVal) → Except PyErr PyVal)
    (args : List PyVal) (kwargs : List (String × PyVal))
    (shared : Cache) (override : Option (Option Cache)) :
    Cache × (Option Cache × Except PyErr PyVal × Nat) :=
  match override with
  | Option.none =>
      let out := new_func max_cache_size func args kwargs (some shared)
      (out.1.getD shared, out)
  | some oc => (shared, new_func max_cache_size func args kwargs oc)

/-- A sequence of wrapped calls, one integer argument each, threading the
shared cache; each computation returns its own argument. -/
def runKeys (max_cache_size : Int) : List Int → Cache → Cache
  | [], c => c
  | k :: rest, c =>
      runKeys max_cache_size rest
        (dispatch max_cache_size (fun _ _ => Except.ok (PyVal.int k))
          [PyVal.int k] [] c Option.none).1

/-- n successive wrapped calls with the same arguments on the shared cache;
the second component is the total number of compute invocations. -/
def repeatCalls (max_cache_size : Int)
    (func : List PyVal → List (String × PyVal) → Except PyErr PyVal)
    (args : List PyVal) (kwargs : List (String × PyVal)) :
    Nat → Cache → Cache × Nat
  | 0, c => (c, 0)
  | n + 1, c =>
      let out := new_func max_cache_size func args kwargs (some c)
      let rest := repeatCalls max_cache_size func args kwargs n (out.1.getD c)
      (rest.1, out.2.2 + rest.2)

/-- control_cache_size returns the caller's mapping unchanged for every
size: the eviction work happens on a deepcopy and is discarded. -/
theorem control_cache_size_eq (c : Option Cache) (s : Int) :
    control_cache_size c s = c := by
  cases c with
  | none => rfl
  | some c => simp [control_cache_size]

/-- When the wh test passes, wh returns True at any positive fuel. -/
theorem wh_ok (obj : List PyVal) (h : whBody obj = true) :
    ∀ fuel, 0 < fuel → wh obj fuel = Except.ok true := by
  intro fuel hf
  cases fuel with
  | zero => exact absurd hf (by simp)
  | succ n => simp [wh, h]

/-- When the wh test fails, wh recurses with unchanged state until the fuel
runs out, producing RecursionError at every fuel. -/
theorem wh_err (obj : List PyVal) (h : whBody obj = false) :
    ∀ fuel, wh obj fuel = Except.error PyErr.recursionError := by
  intro fuel
  induction fuel with
  | zero => rfl
  | succ n ih => simp [wh, h, ih]

/-- get_hashable_subset succeeds, with the original obj, exactly when the wh
test passes on the first attempt. -/
theorem ghs_ok (obj : List PyVal) (h : whBody obj = true) :
    get_hashable_subset obj = Except.ok obj := by
  unfold get_hashable_subset
  rw [wh_ok obj h RECURSION_LIMIT (by decide)]

/-- get_hashable_subset raises RecursionError when the wh test fails. -/
theorem ghs_err (obj : List PyVal) (h : whBody obj = false) :
    get_hashable_subset obj = Except.error PyErr.recursionError := by
  unfold get_hashable_subset
  rw [wh_err obj h]

/-- Lookup after assignment finds the assigned value. -/
theorem dlookup_dictSet_self (c : Cache) (k : List PyVal) (v : PyVal) :
    dlookup (dictSet c k v) k = some v := by
  induction c with
  | nil => simp [dictSet, dlookup]
  | cons e rest ih =>
      by_cases h : e.1 = k
      · simp [dictSet, dlookup, h]
      · simp [dictSet, dlookup, h, ih]

/-- Lookup in a dict extended at the end with a fresh key finds it. -/
theorem dlookup_append_single (c : Cache) (k : List PyVal) (v : PyVal)
    (h : dlookup c k = Option.none) :
    dlookup (c ++ [(k, v)]) k = some v := by
  induction c with
  | nil => simp [dlookup]
  | cons e rest ih =>
      simp only [dlookup] at h
      by_cases he : e.1 = k
      · rw [if_pos he] at h
        exact absurd h (by simp)
      · rw [if_neg he] at h
        simpa [dlookup, he] using ih h

/-- defaultdict read of a present key: no insertion happens. -/
theorem dictGet_of_lookup (c : Cache) (k : List PyVal) (v : PyVal)
    (h : dlookup c k = some v) : dictGet c k = (c, v) := by
  simp [dictGet, h]

/-- defaultdict read of a missing key: the False placeholder is appended. -/
theorem dictGet_of_missing (c : Cache) (k : List PyVal)
    (h : dlookup c k = Option.none) :
    dictGet c k = (c ++ [(k, PyVal.bool false)], PyVal.bool false) := by
  simp [dictGet, h]

/-- Reading right after an assignment returns the assigned value without
touching the dict. -/
theorem dictGet_dictSet (c : Cache) (k : List PyVal) (v : PyVal) :
    dictGet (dictSet c k v) k = (dictSet c k v, v) :=
  dictGet_of_lookup _ _ _ (dlookup_dictSet_self c k v)

/-- A second defaultdict read of the same key changes nothing and returns
the same value as the first: the first read made the key present. -/
theorem dictGet_idem (c : Cache) (k : List PyVal) :
    dictGet (dictGet c k).1 k = ((dictGet c k).1, (dictGet c k).2) := by
  cases h : dlookup c k with
  | some v => simp [dictGet, h]
  | none => simp [dictGet, h, dlookup_append_single c k _ h]

/-- A nonempty derived key is truthy. -/
theorem truthyKey_of_ne (k : List PyVal) (h : k ≠ []) : truthyKey k = true := by
  cases k with
  | nil => exact absurd rfl h
  | cons a t => rfl

/-- Cache-hit path of new_func: a derivable nonempty key whose stored value
is truthy is returned at once, with no computation and no cache write. -/
theorem new_func_hit (mcs : Int)
    (func : List PyVal → List (String × PyVal) → Except PyErr PyVal)
    (args : List PyVal) (kwargs : List (String × PyVal)) (c : Cache) (v : PyVal)
    (hwh : whBody (flatten_call args kwargs) = true)
    (hne : flatten_call args kwargs ≠ [])
    (hc : dlookup c (flatten_call args kwargs) = some v)
    (hv : truthy v = true) :
    new_func mcs func args kwargs (some c) = (some c, Except.ok v, 0) := by
  simp only [new_func, control_cache_size_eq, ghs_ok _ hwh,
    truthyKey_of_ne _ hne, dictGet_of_lookup _ _ _ hc, hv, if_true]

/-- Cache-miss path of new_func with a successful computation: the key is
derivable and nonempty, the stored value is missing or falsy, func returns v;
the call stores v under the key and returns it, invoking func once. -/
theorem new_func_miss_ok (mcs : Int)
    (func : List PyVal → List (String × PyVal) → Except PyErr PyVal)
    (args : List PyVal) (kwargs : List (String × PyVal)) (c : Cache) (v : PyVal)
    (hwh : whBody (flatten_call args kwargs) = true)
    (hne : flatten_call args kwargs ≠ [])
    (hmiss : truthy (dictGet c (flatten_call args kwargs)).2 = false)
    (hfunc : func args kwargs = Except.ok v) :
    new_func mcs func args kwargs (some c) =
      (some (dictSet (dictGet c (flatten_call args kwargs)).1
        (flatten_call args kwargs) v), Except.ok v, 1) := by
  simp only [new_func, control_cache_size_eq, ghs_ok _ hwh,
    truthyKey_of_ne _ hne, if_true, hmiss, Bool.false_eq_true, if_false,
    hfunc, dictGet_dictSet]

/-- Cache-miss path of new_func with a failing computation: the error
propagates unchanged; no value is assigned, but the defaultdict read has
already ensured the key is present (with its falsy placeholder or prior
falsy value). func is invoked once. -/
theorem new_func_miss_err (mcs : Int)
    (func : List PyVal → List (String × PyVal) → Except PyErr PyVal)
    (args : List PyVal) (kwargs : List (String × PyVal)) (c : Cache) (e : PyErr)
    (hwh : whBody (flatten_call args kwargs) = true)
    (hne : flatten_call args kwargs ≠ [])
    (hmiss : truthy (dictGet c (flatten_call args kwargs)).2 = false)
    (hfunc : func args kwargs = Except.error e) :
    new_func mcs func args kwargs (some c) =
      (some (dictGet c (flatten_call args kwargs)).1, Except.error e, 1) := by
  simp only [new_func, control_cache_size_eq, ghs_ok _ hwh,
    truthyKey_of_ne _ hne, if_true, hmiss, Bool.false_eq_true, if_false, hfunc]

/-- When the computation deterministically yields a falsy value, every one of
n successive calls with the same arguments invokes it again: the falsy stored
value keeps being treated as absent. -/
theorem repeatCalls_falsy (mcs : Int)
    (func : List PyVal → List (String × PyVal) → Except PyErr PyVal)
    (args : List PyVal) (kwargs : List (String × PyVal)) (w : PyVal)
    (hwh : whBody (flatten_call args kwargs) = true)
    (hne : flatten_call args kwargs ≠ [])
    (hfunc : func args kwargs = Except.ok w)
    (hw : truthy w = false) :
    ∀ n (c : Cache), truthy (dictGet c (flatten_call args kwargs)).2 = false →
      (repeatCalls mcs func args kwargs n c).2 = n := by
  intro n
  induction n with
  | zero => intro c _; rfl
  | succ m ih =>
      intro c hmiss
      have h1 := new_func_miss_ok mcs func args kwargs c w hwh hne hmiss hfunc
      have h2 : truthy (dictGet (dictSet (dictGet c (flatten_call args kwargs)).1
          (flatten_call args kwargs) w) (flatten_call args kwargs)).2 = false := by
        rw [dictGet_dictSet]
        exact hw
      simp only [repeatCalls, h1, Option.getD_some]
      rw [ih _ h2]
      omega

/-- Claim C1: whenever the capacity-control pass runs on a cache whose size
exceeds max_cache_size it removes oldest-inserted entries until the size
equals max_cache_size, so N distinct key-able calls with max_cache_size = k
leave exactly the k most recent entries. The code violates this:
control_cache_size returns the caller's mapping unchanged for every input
(the eviction runs on a discarded deepcopy), and a run of three distinct
key-able calls with max_cache_size = 2 ends with all 3 entries still in the
cache, even though the discarded local copy had been trimmed to 2. -/
theorem C1_eviction_is_a_noop :
    (∀ (c : Option Cache) (s : Int), control_cache_size c s = c) ∧
    (runKeys 2 [1, 2, 3] []).length = 3 ∧
    (evictedCopy 2 (runKeys 2 [1, 2, 3] [])).length = 2 :=
  ⟨control_cache_size_eq, rfl, rfl⟩

/-- Claim C2: a call whose arguments contain an unhashable element never
raises from the cache layer and ends by invoking the wrapped computation.
The code violates this: with a single list argument, get_hashable_subset
recurses with unchanged state until the interpreter raises RecursionError,
and the wrapped computation is never invoked. -/
theorem C2_unhashable_arg_raises_from_cache_layer :
    new_func 50 (fun _ _ => Except.ok (PyVal.int 5)) [PyVal.list [1]] [] (some []) =
      (some [], Except.error PyErr.recursionError, 0) := by
  have hwh : whBody (flatten_call [PyVal.list [1]] []) = false := by decide
  simp only [new_func, control_cache_size_eq, ghs_err _ hwh]

/-- Claim C3: key derivation repeatedly removes one non-key-able element,
returning the fully key-able remainder, or None when nothing remains. The
code violates this: consume returns None, so remove_unhashable never strips
the unhashable element, and the derivation diverges into RecursionError on
the sequence ([1], 2) instead of returning the key (2,). -/
theorem C3_key_derivation_diverges :
    get_hashable_subset [PyVal.list [1], PyVal.int 2] =
      Except.error PyErr.recursionError :=
  ghs_err _ (by decide)

/-- Claim C4 as stated is false at this input: the computation raises, the
error does propagate unchanged, but afterwards the cache mapping does hold
an entry for the call's key, namely the False placeholder that the
defaultdict read inserted. -/
theorem C4_counterexample :
    new_func 50 (fun _ _ => Except.error (PyErr.userError 7)) [PyVal.int 1] []
        (some []) =
      (some [([PyVal.int 1], PyVal.bool false)],
        Except.error (PyErr.userError 7), 1) ∧
    dlookup [([PyVal.int 1], PyVal.bool false)] [PyVal.int 1] =
      some (PyVal.bool false) :=
  ⟨rfl, rfl⟩

/-- Claim C4 (amended): when the wrapped computation raises on a call with a
derivable nonempty key that has no truthy cached value, the error propagates
to the caller unchanged and no computed value is stored; the key is left
mapped to a falsy value (the defaultdict placeholder or its prior falsy
value), which lookups treat as absent, so a subsequent call with the same
arguments invokes the computation again. -/
theorem C4_error_propagates_without_memoizing (mcs : Int)
    (func : List PyVal → List (String × PyVal) → Except PyErr PyVal)
    (args : List PyVal) (kwargs : List (String × PyVal)) (c : Cache) (e : PyErr)
    (hfunc : func args kwargs = Except.error e)
    (hwh : whBody (flatten_call args kwargs) = true)
    (hne : flatten_call args kwargs ≠ [])
    (hmiss : truthy (dictGet c (flatten_call args kwargs)).2 = false) :
    new_func mcs func args kwargs (some c) =
      (some (dictGet c (flatten_call args kwargs)).1, Except.error e, 1) ∧
    truthy (dictGet (dictGet c (flatten_call args kwargs)).1
      (flatten_call args kwargs)).2 = false ∧
    new_func mcs func args kwargs
        (some (dictGet c (flatten_call args kwargs)).1) =
      (some (dictGet c (flatten_call args kwargs)).1, Except.error e, 1) := by
  have h2 : truthy (dictGet (dictGet c (flatten_call args kwargs)).1
      (flatten_call args kwargs)).2 = false := by
    rw [dictGet_idem]
    exact hmiss
  refine ⟨new_func_miss_err mcs func args kwargs c e hwh hne hmiss hfunc, h2, ?_⟩
  have h3 := new_func_miss_err mcs func args kwargs
    (dictGet c (flatten_call args kwargs)).1 e hwh hne h2 hfunc
  rw [h3, dictGet_idem]

/-- Witness for C4: the amended statement holds at a concrete failing
computation called with the single argument 2 on an empty cache. -/
theorem C4_witness :
    new_func 50 (fun _ _ => Except.error (PyErr.userError 3)) [PyVal.int 2] []
        (some []) =
      (some [([PyVal.int 2], PyVal.bool false)],
        Except.error (PyErr.userError 3), 1) ∧
    truthy (dictGet [([PyVal.int 2], PyVal.bool false)] [PyVal.int 2]).2 = false ∧
    new_func 50 (fun _ _ => Except.error (PyErr.userError 3)) [PyVal.int 2] []
        (some [([PyVal.int 2], PyVal.bool false)]) =
      (some [([PyVal.int 2], PyVal.bool false)],
        Except.error (PyErr.userError 3), 1) :=
  C4_error_propagates_without_memoizing 50
    (fun _ _ => Except.error (PyErr.userError 3)) [PyVal.int 2] [] []
    (PyErr.userError 3) rfl (by decide) (by decide) (by decide)

/-- Claim C5: a call passing the disabled sentinel invokes the computation
directly, without consulting the Key Extractor and without touching any
cache. The code violates this: with local_cache=None and a key-able
argument, new_func still consults the Key Extractor and then subscripts
None, raising TypeError before the computation ever runs; the computation is
reached only when no truthy key exists, as in the zero-argument call. -/
theorem C5_disabled_sentinel_crashes :
    new_func 50 (fun _ _ => Except.ok (PyVal.int 7)) [PyVal.int 1] []
        Option.none =
      (Option.none, Except.error PyErr.typeError, 0) ∧
    new_func 50 (fun _ _ => Except.ok (PyVal.int 7)) [] [] Option.none =
      (Option.none, Except.ok (PyVal.int 7), 1) :=
  ⟨rfl, rfl⟩

/-- Claim C6 as stated is false at this input: with the deterministic
computation constantly returning 0 (a falsy value) and the fixed key-able
argument tuple (1,), two successive calls from a fresh cache invoke the
computation once each, so it is invoked twice, not at most once. -/
theorem C6_counterexample :
    (new_func 50 (fun _ _ => Except.ok (PyVal.int 0)) [PyVal.int 1] []
        (some [])).2.2 +
      (new_func 50 (fun _ _ => Except.ok (PyVal.int 0)) [PyVal.int 1] []
        (new_func 50 (fun _ _ => Except.ok (PyVal.int 0)) [PyVal.int 1] []
          (some [])).1).2.2 = 2 ∧
    ¬ ((new_func 50 (fun _ _ => Except.ok (PyVal.int 0)) [PyVal.int 1] []
        (some [])).2.2 +
      (new_func 50 (fun _ _ => Except.ok (PyVal.int 0)) [PyVal.int 1] []
        (new_func 50 (fun _ _ => Except.ok (PyVal.int 0)) [PyVal.int 1] []
          (some [])).1).2.2 ≤ 1) :=
  ⟨rfl, by decide⟩

/-- Claim C6 (amended): for a fixed nonempty key-able argument tuple and a
deterministic computation, calling the wrapped function twice from a fresh
cache yields the same result both times; and when the computed value is
truthy the computation is invoked at most once across the two calls (a falsy
computed value is recomputed on every call). -/
theorem C6_idempotent_for_truthy_results (mcs : Int)
    (func : List PyVal → List (String × PyVal) → Except PyErr PyVal)
    (args : List PyVal) (kwargs : List (String × PyVal)) (v : PyVal)
    (hfunc : func args kwargs = Except.ok v)
    (hwh : whBody (flatten_call args kwargs) = true)
    (hne : flatten_call args kwargs ≠ []) :
    new_func mcs func args kwargs (some []) =
      (some [(flatten_call args kwargs, v)], Except.ok v, 1) ∧
    (truthy v = true →
      new_func mcs func args kwargs (some [(flatten_call args kwargs, v)]) =
        (some [(flatten_call args kwargs, v)], Except.ok v, 0)) ∧
    (truthy v = false →
      new_func mcs func args kwargs (some [(flatten_call args kwargs, v)]) =
        (some [(flatten_call args kwargs, v)], Except.ok v, 1)) := by
  have hmiss : truthy (dictGet [] (flatten_call args kwargs)).2 = false := by
    simp [dictGet, dlookup, truthy]
  have h1 := new_func_miss_ok mcs func args kwargs [] v hwh hne hmiss hfunc
  have hset : dictSet (dictGet [] (flatten_call args kwargs)).1
      (flatten_call args kwargs) v = [(flatten_call args kwargs, v)] := by
    simp [dictGet, dlookup, dictSet]
  refine ⟨by rw [h1, hset], fun hv => ?_, fun hv => ?_⟩
  · exact new_func_hit mcs func args kwargs _ v hwh hne (by simp [dlookup]) hv
  · have hm2 : truthy (dictGet [(flatten_call args kwargs, v)]
        (flatten_call args kwargs)).2 = false := by
      rw [dictGet_of_lookup _ _ v (by simp [dlookup])]
      exact hv
    have h3 := new_func_miss_ok mcs func args kwargs
      [(flatten_call args kwargs, v)] v hwh hne hm2 hfunc
    rw [h3, dictGet_of_lookup _ _ v (by simp [dlookup])]
    simp [dictSet]

/-- Witness for C6: the amended statement holds at a concrete deterministic
computation returning the truthy value 5 for the argument tuple (3,). -/
theorem C6_witness :
    new_func 50 (fun _ _ => Except.ok (PyVal.int 5)) [PyVal.int 3] []
        (some []) =
      (some [([PyVal.int 3], PyVal.int 5)], Except.ok (PyVal.int 5), 1) ∧
    (truthy (PyVal.int 5) = true →
      new_func 50 (fun _ _ => Except.ok (PyVal.int 5)) [PyVal.int 3] []
          (some [([PyVal.int 3], PyVal.int 5)]) =
        (some [([PyVal.int 3], PyVal.int 5)], Except.ok (PyVal.int 5), 0)) ∧
    (truthy (PyVal.int 5) = false →
      new_func 50 (fun _ _ => Except.ok (PyVal.int 5)) [PyVal.int 3] []
          (some [([PyVal.int 3], PyVal.int 5)]) =
        (some [([PyVal.int 3], PyVal.int 5)], Except.ok (PyVal.int 5), 1)) :=
  C6_idempotent_for_truthy_results 50 (fun _ _ => Except.ok (PyVal.int 5))
    [PyVal.int 3] [] (PyVal.int 5) rfl (by decide) (by decide)

/-- Claim C7: a falsy stored value is treated as absent, it is never served
and a call with the same arguments invokes the computation again, and keeps
doing so while the computed value stays falsy; a truthy stored value is
returned immediately with no computation and no write. -/
theorem C7_falsy_treated_as_absent (mcs : Int)
    (func : List PyVal → List (String × PyVal) → Except PyErr PyVal)
    (args : List PyVal) (kwargs : List (String × PyVal)) (c : Cache) (v w : PyVal)
    (hwh : whBody (flatten_call args kwargs) = true)
    (hne : flatten_call args kwargs ≠ [])
    (hc : dlookup c (flatten_call args kwargs) = some v)
    (hfunc : func args kwargs = Except.ok w) :
    (truthy v = true →
      new_func mcs func args kwargs (some c) = (some c, Except.ok v, 0)) ∧
    (truthy v = false →
      new_func mcs func args kwargs (some c) =
        (some (dictSet c (flatten_call args kwargs) w), Except.ok w, 1) ∧
      (truthy w = false →
        ∀ n, (repeatCalls mcs func args kwargs n c).2 = n)) := by
  refine ⟨fun hv => new_func_hit mcs func args kwargs c v hwh hne hc hv,
    fun hv => ?_⟩
  have hmiss : truthy (dictGet c (flatten_call args kwargs)).2 = false := by
    rw [dictGet_of_lookup _ _ _ hc]
    exact hv
  have h1 := new_func_miss_ok mcs func args kwargs c w hwh hne hmiss hfunc
  refine ⟨by rw [h1, dictGet_of_lookup _ _ _ hc], fun hw n => ?_⟩
  exact repeatCalls_falsy mcs func args kwargs w hwh hne hfunc hw n c hmiss

/-- Witness for C7: the statement holds at a concrete cache storing the
falsy value 0 under the key (1,), with a computation returning 0. -/
theorem C7_witness :
    (truthy (PyVal.int 0) = true →
      new_func 50 (fun _ _ => Except.ok (PyVal.int 0)) [PyVal.int 1] []
          (some [([PyVal.int 1], PyVal.int 0)]) =
        (some [([PyVal.int 1], PyVal.int 0)], Except.ok (PyVal.int 0), 0)) ∧
    (truthy (PyVal.int 0) = false →
      new_func 50 (fun _ _ => Except.ok (PyVal.int 0)) [PyVal.int 1] []
          (some [([PyVal.int 1], PyVal.int 0)]) =
        (some (dictSet [([PyVal.int 1], PyVal.int 0)] [PyVal.int 1]
          (PyVal.int 0)), Except.ok (PyVal.int 0), 1) ∧
      (truthy (PyVal.int 0) = false →
        ∀ n, (repeatCalls 50 (fun _ _ => Except.ok (PyVal.int 0)) [PyVal.int 1]
          [] n [([PyVal.int 1], PyVal.int 0)]).2 = n)) :=
  C7_falsy_treated_as_absent 50 (fun _ _ => Except.ok (PyVal.int 0))
    [PyVal.int 1] [] [([PyVal.int 1], PyVal.int 0)] (PyVal.int 0) (PyVal.int 0)
    (by decide) (by decide) (by decide) rfl

/-- Claim C8 as stated is false: configuring the factory with
max_cache_size = 0 is not rejected, no ConfigurationError exists, and the
wrapped calls do not bypass the cache: the first call stores its result and
the second call is served from the cache with zero computation invocations. -/
theorem C8_counterexample :
    locally_cached 0 (fun _ _ => Except.ok (PyVal.int 5)) [PyVal.int 1] []
        (some []) =
      (some [([PyVal.int 1], PyVal.int 5)], Except.ok (PyVal.int 5), 1) ∧
    locally_cached 0 (fun _ _ => Except.ok (PyVal.int 5)) [PyVal.int 1] []
        (some [([PyVal.int 1], PyVal.int 5)]) =
      (some [([PyVal.int 1], PyVal.int 5)], Except.ok (PyVal.int 5), 0) :=
  ⟨rfl, rfl⟩

/-- Claim C8 (amended): the factory performs no validation of
max_cache_size: a zero or negative value raises nothing and changes nothing,
since wrapped-call behavior is independent of max_cache_size altogether (the
capacity pass never mutates the caller's cache), and calls keep caching
normally, as the concrete run with max_cache_size = -5 shows. -/
theorem C8_size_never_validated :
    (∀ (mcs mcs' : Int) func args kwargs lc,
      locally_cached mcs func args kwargs lc =
        locally_cached mcs' func args kwargs lc) ∧
    locally_cached (-5) (fun _ _ => Except.ok (PyVal.int 5)) [PyVal.int 1] []
        (some [([PyVal.int 1], PyVal.int 5)]) =
      (some [([PyVal.int 1], PyVal.int 5)], Except.ok (PyVal.int 5), 0) := by
  constructor
  · intro mcs mcs' func args kwargs lc
    simp only [locally_cached, new_func, control_cache_size_eq]
  · rfl

/-- Claim C9: a call passing an explicit per-call cache override leaves the
function-bound shared instance unchanged, and a later call that omits the
override runs on exactly the state the shared instance held before the
override, with all previously learned entries intact. -/
theorem C9_override_preserves_shared_state (mcs : Int)
    (func : List PyVal → List (String × PyVal) → Except PyErr PyVal)
    (args : List PyVal) (kwargs : List (String × PyVal))
    (args2 : List PyVal) (kwargs2 : List (String × PyVal))
    (shared : Cache) (oc : Option Cache) :
    (dispatch mcs func args kwargs shared (some oc)).1 = shared ∧
    dispatch mcs func args2 kwargs2
        (dispatch mcs func args kwargs shared (some oc)).1 Option.none =
      dispatch mcs func args2 kwargs2 shared Option.none :=
  ⟨rfl, rfl⟩

end FunctionCache

namespace InsertionSort

/-- Embeds the simultaneous assignment items[j-1], items[j] = items[j],
items[j-1], here swapping positions j and j+1: both reads happen on the
pre-assignment list. -/
def swapAdj (xs : List Int) (j : Nat) : List Int :=
  (xs.set j (xs.getD (j + 1) 0)).set (j + 1) (xs.getD j 0)

/-- Embeds the inner while loop of insertion_sort, with the loop variable
shifted by one (argument j + 1 is the source's j): while j > 0 and
items[j-1] > items[j], swap the two and decrement j. -/
def innerLoop : List Int → Nat → List Int
  | xs, 0 => xs
  | xs, j + 1 =>
      if xs.getD j 0 > xs.getD (j + 1) 0 then innerLoop (swapAdj xs j) j
      else xs

/-- Embeds insertion_sort(items): for i in range(1, len(items)), run the
inner loop starting from j = i. The length is fixed: swaps preserve it. -/
def insertion_sort (items : List Int) : List Int :=
  (List.range' 1 (items.length - 1)).foldl innerLoop items

/-- Insertion of x into the reversed sorted prefix (nearest element first):
elements strictly greater than x are passed over, mirroring the swaps the
inner loop performs right to left. -/
def insRev (x : Int) : List Int → List Int
  | [] => [x]
  | a :: as => if a > x then a :: insRev x as else x :: a :: as

/-- getD at the length of the left part of an append reads the head of the
right part. -/
theorem getD_append_len (l : List Int) (x : Int) (r : List Int) :
    (l ++ x :: r).getD l.length 0 = x := by
  induction l with
  | nil => rfl
  | cons a t ih =>
      simp only [List.cons_append, List.length_cons, List.getD_cons_succ]
      exact ih

/-- set at the length of the left part of an append replaces the head of
the right part. -/
theorem set_append_len (l : List Int) (x y : Int) (r : List Int) :
    (l ++ x :: r).set l.length y = l ++ y :: r := by
  induction l with
  | nil => rfl
  | cons a t ih =>
      simp only [List.cons_append, List.length_cons, List.set_cons_succ]
      rw [ih]

/-- The swap exchanges the two elements at the boundary of the sorted
prefix. -/
theorem swapAdj_eq (l : List Int) (a x : Int) (r : List Int) :
    swapAdj (l ++ a :: x :: r) l.length = l ++ x :: a :: r := by
  unfold swapAdj
  have h1 : (l ++ a :: x :: r).getD l.length 0 = a := getD_append_len l a (x :: r)
  have h2 : (l ++ a :: x :: r).getD (l.length + 1) 0 = x := by
    have h := getD_append_len (l ++ [a]) x r
    simp only [List.append_assoc, List.singleton_append, List.length_append,
      List.length_cons, List.length_nil, Nat.zero_add] at h
    exact h
  rw [h1, h2, set_append_len l a x (x :: r)]
  have h3 := set_append_len (l ++ [x]) x a r
  simp only [List.append_assoc, List.singleton_append, List.length_append,
    List.length_cons, List.length_nil, Nat.zero_add] at h3
  exact h3

/-- The inner loop started at the end of a prefix m.reverse moves the
element x left exactly as insRev inserts it into m. -/
theorem innerLoop_spec (m : List Int) (x : Int) (r : List Int) :
    innerLoop (m.reverse ++ x :: r) m.length = (insRev x m).reverse ++ r := by
  induction m generalizing x r with
  | nil => rfl
  | cons a ms ih =>
      have hrv : (a :: ms).reverse ++ x :: r = ms.reverse ++ a :: x :: r := by
        simp
      rw [hrv]
      simp only [List.length_cons, innerLoop]
      have h1 : (ms.reverse ++ a :: x :: r).getD ms.length 0 = a := by
        have h := getD_append_len ms.reverse a (x :: r)
        rwa [List.length_reverse] at h
      have h2 : (ms.reverse ++ a :: x :: r).getD (ms.length + 1) 0 = x := by
        have h := getD_append_len (ms.reverse ++ [a]) x r
        simpa [List.append_assoc] using h
      have hswap : swapAdj (ms.reverse ++ a :: x :: r) ms.length =
          ms.reverse ++ x :: a :: r := by
        have h := swapAdj_eq ms.reverse a x r
        rwa [List.length_reverse] at h
      rw [h1, h2, hswap]
      by_cases hax : a > x
      · rw [if_pos hax, ih x (a :: r)]
        simp [insRev, hax]
      · rw [if_neg hax]
        simp [insRev, hax]

/-- insRev inserts: the result is a permutation of x consed on. -/
theorem insRev_perm (x : Int) : ∀ m : List Int, List.Perm (insRev x m) (x :: m) := by
  intro m
  induction m with
  | nil => simp [insRev]
  | cons a as ih =>
      by_cases hax : a > x
      · simp only [insRev, if_pos hax]
        exact (ih.cons a).trans (List.Perm.swap x a as)
      · simp only [insRev, if_neg hax]
        exact List.Perm.refl _

/-- insRev preserves sortedness of the reversed prefix (descending order,
nearest element first). -/
theorem insRev_pairwise (x : Int) :
    ∀ m : List Int, List.Pairwise (fun a b => b ≤ a) m →
      List.Pairwise (fun a b => b ≤ a) (insRev x m) := by
  intro m
  induction m with
  | nil => intro _; simp [insRev]
  | cons a as ih =>
      intro h
      rcases List.pairwise_cons.mp h with ⟨ha, has⟩
      by_cases hax : a > x
      · simp only [insRev, if_pos hax]
        refine List.pairwise_cons.mpr ⟨?_, ih has⟩
        intro b hb
        have hmem : b ∈ x :: as := (insRev_perm x as).mem_iff.mp hb
        rcases List.mem_cons.mp hmem with hbx | hbas
        · subst hbx; exact le_of_lt hax
        · exact ha b hbas
      · simp only [insRev, if_neg hax]
        refine List.pairwise_cons.mpr ⟨?_, List.pairwise_cons.mpr ⟨ha, has⟩⟩
        intro b hb
        rcases List.mem_cons.mp hb with hba | hbas
        · subst hba; exact not_lt.mp hax
        · exact le_trans (ha b hbas) (not_lt.mp hax)

/-- One outer-loop step keeps the growing prefix sorted. -/
theorem insStep_sorted (l : List Int) (x : Int)
    (hl : List.Pairwise (fun a b : Int => a ≤ b) l) :
    List.Pairwise (fun a b : Int => a ≤ b) ((insRev x l.reverse).reverse) := by
  rw [List.pairwise_reverse]
  refine insRev_pairwise x l.reverse ?_
  rw [List.pairwise_reverse]
  exact hl

/-- The remaining outer iterations, run on a sorted prefix l followed by the
unprocessed suffix r, produce a sorted permutation of l ++ r. -/
theorem foldl_innerLoop (r : List Int) :
    ∀ l : List Int, List.Pairwise (fun a b : Int => a ≤ b) l →
      List.Pairwise (fun a b : Int => a ≤ b)
        ((List.range' l.length r.length).foldl innerLoop (l ++ r)) ∧
      List.Perm ((List.range' l.length r.length).foldl innerLoop (l ++ r))
        (l ++ r) := by
  induction r with
  | nil =>
      intro l hl
      constructor
      · simpa using hl
      · simp
  | cons x r' ih =>
      intro l hl
      simp only [List.length_cons]
      rw [List.range'_succ]
      simp only [List.foldl_cons]
      have hstep : innerLoop (l ++ x :: r') l.length =
          (insRev x l.reverse).reverse ++ r' := by
        have h := innerLoop_spec l.reverse x r'
        rwa [List.reverse_reverse, List.length_reverse] at h
      rw [hstep]
      have hperm2 : List.Perm ((insRev x l.reverse).reverse) (x :: l) :=
        ((insRev x l.reverse).reverse_perm.trans (insRev_perm x l.reverse)).trans
          ((l.reverse_perm).cons x)
      have hlen : ((insRev x l.reverse).reverse).length = l.length + 1 := by
        rw [hperm2.length_eq]
        rfl
      have h := ih ((insRev x l.reverse).reverse) (insStep_sorted l x hl)
      rw [hlen] at h
      refine ⟨h.1, h.2.trans ?_⟩
      exact ((hperm2.append_right r').trans (List.perm_middle).symm)

/-- Claim C10: insertion_sort returns, in the state-passing embedding, the
final state of the list it sorts in place: a permutation of the input
arranged in non-decreasing order. -/
theorem C10_insertion_sort_sorts (items : List Int) :
    List.Perm (insertion_sort items) items ∧
    List.Sorted (fun a b : Int => a ≤ b) (insertion_sort items) := by
  cases items with
  | nil =>
      constructor
      · simp [insertion_sort]
      · simp [insertion_sort]
  | cons a t =>
      have e1 : insertion_sort (a :: t) =
          (List.range' (([a] : List Int)).length t.length).foldl innerLoop ([a] ++ t) := by
        simp [insertion_sort]
      have h := foldl_innerLoop t [a] (by simp)
      rw [e1]
      exact ⟨h.2, h.1⟩

end InsertionSort
